import Mathlib

/-!
Verification model of the Minecraft-Bot agent control loop.

The repository contains two near-duplicate variants of the agent:
the core variant (the file embedded here as the `Core`-level definitions:
`BotState`, `GeminiController`, `ActionExecutor`) and the broad variant
(`bot.js`, embedded in the `Broad` namespace).  JavaScript strings are
modelled as Lean `String`/`List Char`, JS numbers as `ℚ` (positions,
rotations) or `Int`/`Nat` (counters, health), and the fire-and-forget
session capability as an accumulated list of `Packet`s.
-/

/-- JS whitespace for the character classes used by the source regexes
(space, tab, newline, carriage return cover every input the code builds). -/
def isJsWs (c : Char) : Bool := c == ' ' || c == '\t' || c == '\n' || c == '\r'

/-- The JS regex `.` character class: everything except line terminators. -/
def isDotChar (c : Char) : Bool := !(c == '\n' || c == '\r')

/-- String.trim on the character-list level (JS `.trim()`). -/
def listTrim (l : List Char) : List Char :=
  ((l.dropWhile isJsWs).reverse.dropWhile isJsWs).reverse

/-- JS `.toLowerCase()` on a character list. -/
def lowerList (l : List Char) : List Char := l.map Char.toLower

/-- JS `String.prototype.includes`: `pat` occurs as a contiguous substring. -/
def listContains (l pat : List Char) : Bool :=
  (List.range (l.length + 1)).any (fun i => pat.isPrefixOf (l.drop i))

/-- JS `s.includes(pat)` on Lean strings. -/
def strContains (s pat : String) : Bool := listContains s.toList pat.toList

/-- Split a character list at every occurrence of `sep`, keeping empty
pieces: the semantics of JS `split(' ')`. -/
def splitChar (l : List Char) (sep : Char) : List (List Char) :=
  let step := fun (acc : List (List Char) × List Char) (c : Char) =>
    if c == sep then (acc.1 ++ [acc.2], []) else (acc.1, acc.2 ++ [c])
  let fin := l.foldl step ([], [])
  fin.1 ++ [fin.2]

/-- Split a character list on runs of whitespace, dropping empty pieces:
the semantics of JS `split(/\s+/)` applied to an already-trimmed string. -/
def splitWsRuns (l : List Char) : List (List Char) :=
  let step := fun (acc : List (List Char) × List Char) (c : Char) =>
    if isJsWs c then
      (if acc.2.isEmpty then acc.1 else acc.1 ++ [acc.2], [])
    else (acc.1, acc.2 ++ [c])
  let fin := l.foldl step ([], [])
  if fin.2.isEmpty then fin.1 else fin.1 ++ [fin.2]

/-- JS `parseInt` on a string: skip leading whitespace, optional sign,
then the maximal decimal-digit prefix; `none` models `NaN`. -/
def jsParseInt (s : String) : Option Int :=
  let cs := s.toList.dropWhile isJsWs
  let signAndRest : Bool × List Char :=
    match cs with
    | '-' :: rest => (true, rest)
    | '+' :: rest => (false, rest)
    | _ => (false, cs)
  let digits := signAndRest.2.takeWhile Char.isDigit
  if digits.isEmpty then none
  else
    let n : Nat := digits.foldl (fun acc c => acc * 10 + (c.toNat - '0'.toNat)) 0
    some (if signAndRest.1 then -(n : Int) else (n : Int))

/-- JS `parseInt(o) || dflt`: `NaN` and `0` are both falsy and give the
default. -/
def jsParseIntOr (dflt : Int) (o : Option String) : Int :=
  match o with
  | none => dflt
  | some s =>
    match jsParseInt s with
    | none => dflt
    | some n => if n = 0 then dflt else n

/-- JS `args.join(' ')`. -/
def joinSpace : List String → String
  | [] => ""
  | [s] => s
  | s :: rest => s ++ " " ++ joinSpace rest

/-- A 3D position with JS numbers modelled as rationals. -/
structure Pos where
  x : ℚ
  y : ℚ
  z : ℚ
deriving DecidableEq, Repr

/-- Yaw/pitch pair (the JS `rotation` object). -/
structure Rot where
  yaw : ℚ
  pitch : ℚ
deriving DecidableEq, Repr

/-- An inventory item as delivered by `inventory_content` packets; the
source reads `i.name?.toLowerCase() || ''`, so `name` may be absent. -/
structure Item where
  name : Option String
  count : Nat
deriving DecidableEq, Repr

/-- One entry of the core variant's action-history log (`addToHistory`). -/
structure HistoryEntry where
  timestamp : Nat
  action : String
  result : String
  details : String
  phase : String
  position : Pos
deriving DecidableEq, Repr

/-- The core variant's `BotState` (the fields the control loop reads and
writes; the JS `rotation` field is named `rot` here). -/
structure BotState where
  position : Pos
  rot : Rot
  health : Int
  hunger : Int
  inventory : List Item
  currentGoal : String
  gamePhase : String
  actionHistory : List HistoryEntry
  lastUpdate : Nat
  isDay : Bool
  consecutiveErrors : Nat
deriving DecidableEq, Repr

/-- The state produced by the core `BotState` constructor. -/
def BotState.init : BotState where
  position := ⟨0, 0, 0⟩
  rot := ⟨0, 0⟩
  health := 20
  hunger := 20
  inventory := []
  currentGoal := "survive"
  gamePhase := "early"
  actionHistory := []
  lastUpdate := 0
  isDay := true
  consecutiveErrors := 0

/-- A partial state patch, the argument of `update(data)`
(`Object.assign(this, data)` merges only the supplied fields). -/
structure StateUpdate where
  position : Option Pos := none
  rot : Option Rot := none
  health : Option Int := none
  inventory : Option (List Item) := none
  gamePhase : Option String := none
deriving Repr

/-- `BotState.update`: merge the supplied fields and stamp `lastUpdate`
(the `stateChanged` event notification has no semantic content here). -/
def BotState.update (st : BotState) (d : StateUpdate) (now : Nat) : BotState :=
  { st with
    position := d.position.getD st.position
    rot := d.rot.getD st.rot
    health := d.health.getD st.health
    inventory := d.inventory.getD st.inventory
    gamePhase := d.gamePhase.getD st.gamePhase
    lastUpdate := now }

/-- `slice(-cap)` applied after a push once the log exceeds `cap`:
the trimming step shared by both variants' `addToHistory`. -/
def trimTo (cap : Nat) (l : List α) : List α :=
  if l.length > cap then l.drop (l.length - cap) else l

/-- Core `addToHistory`: push one phase- and position-tagged entry, then
keep only the last 100. -/
def BotState.addToHistory (st : BotState) (action result details : String)
    (now : Nat) : BotState :=
  { st with actionHistory :=
      trimTo 100 (st.actionHistory ++
        [⟨now, action, result, details, st.gamePhase, st.position⟩]) }

/-- The lowercased name the phase check reads from an item
(`i.name?.toLowerCase() || ''`). -/
def lowerName (i : Item) : List Char := lowerList (i.name.getD "").toList

/-- Core `determineGamePhase`: diamond/netherite before iron, default
early; the core variant has no endgame tier. -/
def BotState.determineGamePhase (st : BotState) : String :=
  let items := st.inventory.map lowerName
  if items.any (fun i => listContains i "diamond".toList ||
      listContains i "netherite".toList) then "late"
  else if items.any (fun i => listContains i "iron".toList) then "mid"
  else "early"

/-- The `inventory_content` event handler of the core variant: it calls
`update` with the new items and with `determineGamePhase()` — which is
evaluated while `this.inventory` is still the old inventory. -/
def inventoryContentHandler (st : BotState) (items : Option (List Item))
    (now : Nat) : BotState :=
  st.update { inventory := some (items.getD []),
              gamePhase := some st.determineGamePhase } now

/-- A parsed decision (`{action, reasoning}`). -/
structure Plan where
  action : String
  reasoning : String
deriving DecidableEq, Repr

/-- Case-insensitive prefix test against an already-lowercase pattern. -/
def lowerPrefixOf (pat l : List Char) : Bool :=
  (l.take pat.length).map Char.toLower == pat

/-- The capture of `/ACTION:\s*(.+?)(?:\n|$)/` applied to the text after
the marker: greedy `\s*` with backtracking, then a lazy one-or-more run of
non-line-terminator characters ended by a newline or the end of input. -/
def captureAt (rest : List Char) : Option (List Char) :=
  let wsMax := (rest.takeWhile isJsWs).length
  (List.range (wsMax + 1)).findSome? (fun i =>
    let k := wsMax - i
    let tail := rest.drop k
    (List.range tail.length).findSome? (fun j =>
      let m := j + 1
      let cap := tail.take m
      if cap.all isDotChar && (m == tail.length || tail.get? m == some '\n')
      then some cap else none))

/-- Leftmost match of the case-insensitive `ACTION:` marker regex,
returning the captured command text. -/
def actionMarkerSearch (s : String) : Option String :=
  let cs := s.toList
  (List.range (cs.length + 1)).findSome? (fun i =>
    let rest := cs.drop i
    if lowerPrefixOf "action:".toList rest then
      (captureAt (rest.drop 7)).map (fun cap => String.mk cap)
    else none)

/-- `response.split('ACTION:')[0]`: the text before the first
case-sensitive occurrence of the marker, or the whole text. -/
def beforeFirstActionColon (s : String) : String :=
  let cs := s.toList
  let pat := "ACTION:".toList
  match (List.range (cs.length + 1)).find? (fun i => pat.isPrefixOf (cs.drop i)) with
  | some i => String.mk (cs.take i)
  | none => s

/-- JS `.trim()` on a Lean string, evaluated on the character list. -/
def strTrim (s : String) : String := String.mk (listTrim s.toList)

/-- Leftmost match of the fallback regex `cmd\s+[^\n]+` (case-insensitive
on an all-lowercase verb): the verb, at least one whitespace character,
then a maximal nonempty run of non-newline characters. -/
def scanCommand (cmd : String) (s : String) : Option String :=
  let cs := s.toList
  let cl := cmd.toList
  (List.range (cs.length + 1)).findSome? (fun i =>
    let rest := cs.drop i
    if lowerPrefixOf cl rest then
      let after := rest.drop cl.length
      let wsMax := (after.takeWhile isJsWs).length
      ((List.range wsMax).findSome? (fun j =>
        let k := wsMax - j
        let body := (after.drop k).takeWhile (fun c => !(c == '\n'))
        if body.length > 0 then some (rest.take (cl.length + k + body.length))
        else none)).map String.mk
    else none)

/-- The command verbs the fallback scan tries, in source order. -/
def commandsList : List String :=
  ["move", "mine", "explore", "attack", "chat", "wait", "jumpmove"]

/-- `GeminiController.parseAction`: the explicit `ACTION:` marker wins;
otherwise the first verb of `commandsList` matching anywhere; otherwise
the default explore plan. -/
def GeminiController.parseAction (response : String) : Plan :=
  match actionMarkerSearch response with
  | some cap => ⟨strTrim cap, strTrim (beforeFirstActionColon response)⟩
  | none =>
    match commandsList.findSome? (fun cmd => scanCommand cmd response) with
    | some m => ⟨strTrim m, "Extracted from response"⟩
    | none => ⟨"explore", "Could not parse action, defaulting to explore"⟩

/-- One entry of the controller's bounded conversation trace (the fields
the trimming logic depends on). -/
structure ConvEntry where
  response : String
  action : Plan
deriving DecidableEq, Repr

/-- The result of one `think` cycle: the chosen plan, the (possibly
error-incremented) state, the updated conversation trace, and whether the
reasoning capability was invoked during the cycle. -/
structure ThinkOut where
  plan : Plan
  state : BotState
  hist : List ConvEntry
  calledGemini : Bool
deriving Repr

/-- `GeminiController.safeFallback`: deterministic plan keyed on health
and phase. -/
def GeminiController.safeFallback (st : BotState) : Plan :=
  if st.health < 10 then ⟨"wait", "Low health, being cautious"⟩
  else if st.gamePhase = "early" then ⟨"mine wood", "Need basic resources"⟩
  else ⟨"explore", "Safe exploration"⟩

/-- `GeminiController.think`: the source always awaits `callGemini` first
(hence `calledGemini` is unconditionally true); `apiResult` is that call's
outcome.  On success the reply is parsed and traced (trace capped at 20);
on failure `consecutiveErrors` is incremented and, once it exceeds
`maxConsecutiveErrors = 5`, the safe fallback is returned, else a plain
wait. -/
def GeminiController.think (hist : List ConvEntry) (st : BotState)
    (apiResult : Except String String) : ThinkOut :=
  match apiResult with
  | .ok response =>
    let a := GeminiController.parseAction response
    let h2 := hist ++ [⟨response, a⟩]
    ⟨a, st, trimTo 20 h2, true⟩
  | .error _ =>
    let st2 := { st with consecutiveErrors := st.consecutiveErrors + 1 }
    if st2.consecutiveErrors > 5 then
      ⟨GeminiController.safeFallback st2, st2, hist, true⟩
    else
      ⟨⟨"wait", "Error recovery"⟩, st2, hist, true⟩

/-- A command written to the session capability (`client.write` in the
core variant, `client.queue` in the broad one). -/
inductive Packet where
  | movePlayer (pos : Pos) (yaw pitch : ℚ) (onGround : Bool)
  | playerAction (x y z : Int)
  | animate
  | textMsg (msg : String)
  | movePlayerBroad (pos : Pos) (yaw pitch : ℚ)
  | craftingEvent (recipe : String)
  | attackPkt (target : String)
  | useItem (act : String)
deriving DecidableEq, Repr

/-- `{success, message}`. -/
structure ExecResult where
  success : Bool
  message : String
deriving DecidableEq, Repr

/-- Direction table of the core `move`/`jumpMove` handlers:
`(dx, dz, yaw)`. -/
def directionsCore (d : String) : Option (ℚ × ℚ × ℚ) :=
  if d = "north" then some (0, -1, 180)
  else if d = "south" then some (0, 1, 0)
  else if d = "east" then some (1, 0, 270)
  else if d = "west" then some (-1, 0, 90)
  else none

/-- One iteration of the core `move` loop: advance by one interpolation
step and emit one `move_player` packet. -/
def moveStep (dx dz yaw stepSize : ℚ) (acc : BotState × List Packet)
    (_i : Nat) : BotState × List Packet :=
  let st := acc.1
  let newPos : Pos := ⟨st.position.x + dx * stepSize, st.position.y,
                       st.position.z + dz * stepSize⟩
  ({ st with position := newPos, rot := ⟨yaw, 0⟩ },
   acc.2 ++ [Packet.movePlayer newPos yaw 0 true])

/-- Core `move` handler: `steps = min(blocks*4, 40)` interpolation steps
of size `blocks/steps`, one position packet per step. -/
def ActionExecutor.move (st : BotState) (direction : String) (blocks : Int) :
    BotState × List Packet × ExecResult :=
  match directionsCore direction with
  | none => (st, [], ⟨false, "Invalid direction: " ++ direction⟩)
  | some d =>
    let steps : Int := min (blocks * 4) 40
    let stepSize : ℚ := (blocks : ℚ) / (steps : ℚ)
    let out := (List.range steps.toNat).foldl (moveStep d.1 d.2.1 d.2.2 stepSize) (st, [])
    (out.1, out.2,
     ⟨true, "Moved " ++ direction ++ " " ++ toString blocks ++ " blocks"⟩)

/-- One iteration of `jumpMove`: an airborne half-step up then a grounded
half-step down, each written to the session. -/
def jumpStep (dx dz yaw : ℚ) (acc : BotState × List Packet) (_i : Nat) :
    BotState × List Packet :=
  let st := acc.1
  let jumpPos : Pos := ⟨st.position.x + dx * (1/2), st.position.y + 1,
                        st.position.z + dz * (1/2)⟩
  let st1 := { st with position := jumpPos }
  let landPos : Pos := ⟨st1.position.x + dx * (1/2), st1.position.y - 1,
                        st1.position.z + dz * (1/2)⟩
  ({ st1 with position := landPos },
   acc.2 ++ [Packet.movePlayer jumpPos yaw 0 false,
             Packet.movePlayer landPos yaw 0 true])

/-- Core `jumpMove` handler. -/
def ActionExecutor.jumpMove (st : BotState) (direction : String)
    (blocks : Int) : BotState × List Packet × ExecResult :=
  match directionsCore direction with
  | none => (st, [], ⟨false, "Invalid direction: " ++ direction⟩)
  | some d =>
    let out := (List.range blocks.toNat).foldl (jumpStep d.1 d.2.1 d.2.2) (st, [])
    (out.1, out.2,
     ⟨true, "Jump-moved " ++ direction ++ " " ++ toString blocks ++ " blocks"⟩)

/-- Core `mine` handler: orient the pitch, send one pose update, one
`player_action` on the targeted block, then five swing animations. -/
def ActionExecutor.mine (st : BotState) (target : String) :
    BotState × List Packet × ExecResult :=
  let lookDown := strContains target "down" || strContains target "stone" ||
    strContains target "dirt"
  let pitch : ℚ := if lookDown then 90 else 0
  let st1 := { st with rot := ⟨st.rot.yaw, pitch⟩ }
  let bx :=
    if lookDown then (⌊st1.position.x⌋, ⌊st1.position.y⌋ - 1, ⌊st1.position.z⌋)
    else (⌊st1.position.x⌋, ⌊st1.position.y⌋,
          ⌊st1.position.z⌋ + (if st1.rot.yaw = 0 then 1 else -1))
  (st1,
   [Packet.movePlayer st1.position st1.rot.yaw pitch true,
    Packet.playerAction bx.1 bx.2.1 bx.2.2] ++ List.replicate 5 Packet.animate,
   ⟨true, "Mining " ++ target⟩)

/-- Core `explore` handler: a random direction and a random distance in
3..9, both supplied as parameters, then delegated to `move`. -/
def ActionExecutor.explore (st : BotState) (d : Fin 4) (e : Fin 7) :
    BotState × List Packet × ExecResult :=
  let dir := ["north", "south", "east", "west"].get (Fin.cast (by rfl) d)
  ActionExecutor.move st dir (3 + (e.val : Int))

/-- Core `attack` handler. -/
def ActionExecutor.attack (st : BotState) : BotState × List Packet × ExecResult :=
  (st, [Packet.animate], ⟨true, "Attacking nearby target"⟩)

/-- Core `chat` handler: an empty message is falsy, so the packet carries
the greeting while the result echoes the raw argument. -/
def ActionExecutor.chat (st : BotState) (message : String) :
    BotState × List Packet × ExecResult :=
  (st, [Packet.textMsg (if message = "" then "Hello!" else message)],
   ⟨true, "Sent: " ++ message⟩)

/-- Core `wait` handler. -/
def ActionExecutor.waitTurn (st : BotState) : BotState × List Packet × ExecResult :=
  (st, [], ⟨true, "Waiting and observing"⟩)

/-- `actionString.toLowerCase().trim().split(/\s+/)`. -/
def jsTokenizeCore (s : String) : List String :=
  let t := listTrim (lowerList s.toList)
  if t.isEmpty then [""] else (splitWsRuns t).map String.mk

/-- The leading command token the core dispatcher switches on. -/
def coreCommandOf (s : String) : String := (jsTokenizeCore s).headD ""

/-- The argument tokens after the command. -/
def coreArgsOf (s : String) : List String := (jsTokenizeCore s).drop 1

/-- The fixed handler set of the core dispatcher. -/
def coreCommandNames : List String :=
  ["move", "jumpmove", "mine", "explore", "attack", "chat", "wait"]

/-- Core `performAction`: tokenize, dispatch on the leading token over the
closed handler table, unknown tokens fail without touching the session.
`d`/`e` feed the random choices of `explore`. -/
def ActionExecutor.performAction (st : BotState) (actionString : String)
    (d : Fin 4) (e : Fin 7) : BotState × List Packet × ExecResult :=
  let command := coreCommandOf actionString
  let args := coreArgsOf actionString
  if command = "move" then
    ActionExecutor.move st ((args.get? 0).getD "undefined") (jsParseIntOr 5 (args.get? 1))
  else if command = "jumpmove" then
    ActionExecutor.jumpMove st ((args.get? 0).getD "undefined") (jsParseIntOr 5 (args.get? 1))
  else if command = "mine" then ActionExecutor.mine st (joinSpace args)
  else if command = "explore" then ActionExecutor.explore st d e
  else if command = "attack" then ActionExecutor.attack st
  else if command = "chat" then ActionExecutor.chat st (joinSpace args)
  else if command = "wait" then ActionExecutor.waitTurn st
  else (st, [], ⟨false, "Unknown command: " ++ command⟩)

/-- The executor: the guarded state, the packets delivered to the session
capability so far, and the single-flight busy flag. -/
structure ActionExecutor where
  state : BotState
  sent : List Packet
  isBusy : Bool
deriving Repr

/-- How one guarded handler invocation settled: `ok` is a normal
completion carrying the handler's state, packets and result; `thrown`
covers a raised exception and the timeout rejection winning the
`Promise.race` (message `"Action timeout"`), with whatever partial
effects the abandoned handler had already applied. -/
inductive HOutcome where
  | ok (st : BotState) (pkts : List Packet) (r : ExecResult)
  | thrown (st : BotState) (pkts : List Packet) (msg : String)
deriving Repr

/-- Core `execute`: reject immediately while busy; otherwise set the busy
flag, run the handler, on normal completion zero `consecutiveErrors` and
record a ✓/✗ history entry, on an exception or timeout record an ERROR
entry, and in all paths clear the busy flag (`finally`). -/
def ActionExecutor.execute (ex : ActionExecutor) (plan : Plan)
    (h : HOutcome) (now : Nat) : ExecResult × ActionExecutor :=
  if ex.isBusy then (⟨false, "Busy"⟩, ex)
  else
    match h with
    | .ok st1 pkts r =>
      let st2 := { st1 with consecutiveErrors := 0 }
      let st3 := st2.addToHistory plan.action (if r.success then "✓" else "✗")
        r.message now
      (r, { state := st3, sent := ex.sent ++ pkts, isBusy := false })
    | .thrown st1 pkts msg =>
      let st3 := st1.addToHistory plan.action "ERROR" msg now
      (⟨false, msg⟩, { state := st3, sent := ex.sent ++ pkts, isBusy := false })

/-- `execute` in the run where the handler settles before the timeout:
the outcome is exactly `performAction`'s normal completion. -/
def ActionExecutor.run (ex : ActionExecutor) (plan : Plan) (d : Fin 4)
    (e : Fin 7) (now : Nat) : ExecResult × ActionExecutor :=
  let out := ActionExecutor.performAction ex.state plan.action d e
  ex.execute plan (.ok out.1 out.2.1 out.2.2) now

namespace Broad

/-- One entry of the broad variant's history log (no details, no position
snapshot). -/
structure HistoryEntry where
  timestamp : Nat
  action : String
  result : String
  phase : String
deriving DecidableEq, Repr

/-- The broad variant's `BotState` (its executor never writes back to the
state apart from `addToHistory`). -/
structure BotState where
  position : Pos
  rot : Rot
  health : Int
  hunger : Int
  inventory : List Item
  currentGoal : Option String
  gamePhase : String
  actionHistory : List HistoryEntry
  lastUpdate : Nat
deriving DecidableEq, Repr

/-- The state produced by the broad `BotState` constructor. -/
def BotState.init : BotState where
  position := ⟨0, 0, 0⟩
  rot := ⟨0, 0⟩
  health := 20
  hunger := 20
  inventory := []
  currentGoal := none
  gamePhase := "early"
  actionHistory := []
  lastUpdate := 0

/-- Broad `addToHistory`: push a phase-tagged entry, keep only the last
50. -/
def BotState.addToHistory (st : BotState) (action result : String)
    (now : Nat) : BotState :=
  { st with actionHistory :=
      trimTo 50 (st.actionHistory ++ [⟨now, action, result, st.gamePhase⟩]) }

/-- Broad `determineGamePhase`: elytra/dragon before diamond/netherite
before iron, default early. -/
def BotState.determineGamePhase (st : BotState) : String :=
  let items := st.inventory.map lowerName
  if items.any (fun i => listContains i "elytra".toList ||
      listContains i "dragon".toList) then "endgame"
  else if items.any (fun i => listContains i "diamond".toList ||
      listContains i "netherite".toList) then "late"
  else if items.any (fun i => listContains i "iron".toList) then "mid"
  else "early"

/-- `actionString.toLowerCase().split(' ')` — the broad dispatcher splits
on single spaces without trimming. -/
def tokenize (s : String) : List String :=
  (splitChar (lowerList s.toList) ' ').map String.mk

/-- The leading command token of the broad dispatcher. -/
def commandOf (s : String) : String := (tokenize s).headD ""

/-- The argument tokens of the broad dispatcher. -/
def argsOf (s : String) : List String := (tokenize s).drop 1

/-- The fixed handler set of the broad dispatcher. -/
def commandNames : List String :=
  ["mine", "craft", "move", "explore", "combat", "build", "eat", "sleep"]

/-- Broad `mineBlock`: queue one `start_break` on the block underfoot. -/
def mineBlock (st : BotState) (blockType : Option String) :
    List Packet × ExecResult :=
  ([Packet.playerAction ⌊st.position.x⌋ (⌊st.position.y⌋ - 1) ⌊st.position.z⌋],
   ⟨true, "Mining " ++ (match blockType with
                        | none => "block"
                        | some t => if t = "" then "block" else t)⟩)

/-- Broad `craftItem`. -/
def craftItem (item : String) : List Packet × ExecResult :=
  ([Packet.craftingEvent item], ⟨true, "Crafting " ++ item⟩)

/-- Broad `move`: a single teleport-style `move_player` to the target
point, no interpolation. -/
def move (st : BotState) (direction : String) (distance : Int) :
    List Packet × ExecResult :=
  let delta : Option (ℚ × ℚ) :=
    if direction = "north" then some (0, -(distance : ℚ))
    else if direction = "south" then some (0, (distance : ℚ))
    else if direction = "east" then some ((distance : ℚ), 0)
    else if direction = "west" then some (-(distance : ℚ), 0)
    else none
  match delta with
  | none => ([], ⟨false, "Invalid direction"⟩)
  | some d =>
    let target : Pos := ⟨st.position.x + d.1, st.position.y, st.position.z + d.2⟩
    ([Packet.movePlayerBroad target st.rot.yaw st.rot.pitch],
     ⟨true, "Moving " ++ direction ++ " (" ++ toString distance ++ "m)"⟩)

/-- Broad `explore`: a random planar displacement (`cos`/`sin` of a random
angle times a random distance), supplied here as the two parameters. -/
def explore (st : BotState) (dx dz : ℚ) : List Packet × ExecResult :=
  let target : Pos := ⟨st.position.x + dx, st.position.y, st.position.z + dz⟩
  ([Packet.movePlayerBroad target st.rot.yaw st.rot.pitch],
   ⟨true, "Exploring area"⟩)

/-- Broad `combat`: the queued target falls back to `nearest_hostile` for
falsy arguments while the message echoes the raw argument (JS renders a
missing one as `undefined`). -/
def combat (target : Option String) : List Packet × ExecResult :=
  let queued := match target with
                | none => "nearest_hostile"
                | some t => if t = "" then "nearest_hostile" else t
  ([Packet.attackPkt queued],
   ⟨true, "Attacking " ++ (target.getD "undefined")⟩)

/-- Broad `build`: no packet at all. -/
def build (structureName : String) : List Packet × ExecResult :=
  ([], ⟨true, "Building " ++ structureName⟩)

/-- Broad `eat`. -/
def eat : List Packet × ExecResult :=
  ([Packet.useItem "consume"], ⟨true, "Eating food"⟩)

/-- Broad `sleep`. -/
def sleepTurn : List Packet × ExecResult :=
  ([Packet.useItem "sleep"], ⟨true, "Sleeping"⟩)

/-- Broad `performAction`: dispatch on the leading token; unknown tokens
yield `Unknown action: <token>` without touching the session capability.
`dx`/`dz` feed `explore`'s random displacement. -/
def performAction (st : BotState) (actionString : String) (dx dz : ℚ) :
    List Packet × ExecResult :=
  let command := commandOf actionString
  let args := argsOf actionString
  if command = "mine" then mineBlock st (args.get? 0)
  else if command = "craft" then craftItem (joinSpace args)
  else if command = "move" then
    move st ((args.get? 0).getD "undefined") (jsParseIntOr 10 (args.get? 1))
  else if command = "explore" then explore st dx dz
  else if command = "combat" then combat (args.get? 0)
  else if command = "build" then build (joinSpace args)
  else if command = "eat" then eat
  else if command = "sleep" then sleepTurn
  else ([], ⟨false, "Unknown action: " ++ command⟩)

end Broad

/-- C1: while the busy flag is set, `execute(plan)` returns
`{success:false, message:"Busy"}` immediately and the executor — busy
flag, guarded state, history, and the packets delivered to the session
capability — is returned unchanged; the result is the same for every
handler outcome, so no handler runs and nothing is sent. -/
theorem busy_execute_rejects_without_side_effects
    (ex : ActionExecutor) (plan : Plan) (h : HOutcome) (now : Nat)
    (hb : ex.isBusy = true) :
    ActionExecutor.execute ex plan h now = (⟨false, "Busy"⟩, ex) := by
  simp [ActionExecutor.execute, hb]

/-- A busy executor on a concrete state rejecting a concrete plan. -/
def busyExecutor : ActionExecutor := ⟨BotState.init, [], true⟩

/-- Witness for C1 at a concrete busy executor and plan. -/
theorem busy_execute_rejects_witness :
    ActionExecutor.execute busyExecutor ⟨"wait", "observe"⟩
      (.ok BotState.init [] ⟨true, "Waiting and observing"⟩) 0 =
      (⟨false, "Busy"⟩, busyExecutor) :=
  busy_execute_rejects_without_side_effects busyExecutor ⟨"wait", "observe"⟩
    (.ok BotState.init [] ⟨true, "Waiting and observing"⟩) 0 rfl

/-- C2: every `execute(plan)` call that enters the non-busy path leaves
the busy flag false when it returns, whatever the handler outcome —
normal completion, a thrown exception, or the timeout rejection winning
the race (`HOutcome.thrown` with message `"Action timeout"`): the
`finally` clause always clears the flag. -/
theorem execute_clears_busy_flag
    (ex : ActionExecutor) (plan : Plan) (h : HOutcome) (now : Nat)
    (hb : ex.isBusy = false) :
    ((ActionExecutor.execute ex plan h now).2).isBusy = false := by
  cases h <;> simp [ActionExecutor.execute, hb]

/-- Witness for C2: a timed-out handler on a concrete idle executor still
leaves the busy flag cleared. -/
theorem execute_clears_busy_flag_witness :
    ((ActionExecutor.execute ⟨BotState.init, [], false⟩ ⟨"mine wood", "r"⟩
        (.thrown BotState.init [] "Action timeout") 0).2).isBusy = false :=
  execute_clears_busy_flag ⟨BotState.init, [], false⟩ ⟨"mine wood", "r"⟩
    (.thrown BotState.init [] "Action timeout") 0 rfl

/-- A core state carrying a nonzero error budget, to observe the reset. -/
def errState : BotState := { BotState.init with consecutiveErrors := 4 }

/-- C10: in the core variant, every `execute` call that enters the
non-busy path and whose handler completes normally zeroes
`consecutiveErrors`, for every result — in particular for the
`success:false` completions produced by an unknown command and by an
invalid move direction. -/
theorem nonthrowing_execute_resets_errors :
    (∀ (ex : ActionExecutor) (plan : Plan) (st1 : BotState)
       (pkts : List Packet) (r : ExecResult) (now : Nat), ex.isBusy = false →
       ((ActionExecutor.execute ex plan (.ok st1 pkts r) now).2).state.consecutiveErrors
         = 0) ∧
    (∀ (d : Fin 4) (e : Fin 7),
       (ActionExecutor.run ⟨errState, [], false⟩ ⟨"fly", "r"⟩ d e 0).1 =
           ⟨false, "Unknown command: fly"⟩ ∧
       ((ActionExecutor.run ⟨errState, [], false⟩ ⟨"fly", "r"⟩ d e 0).2).state.consecutiveErrors
         = 0) ∧
    (∀ (d : Fin 4) (e : Fin 7),
       (ActionExecutor.run ⟨errState, [], false⟩ ⟨"move up 3", "r"⟩ d e 0).1 =
           ⟨false, "Invalid direction: up"⟩ ∧
       ((ActionExecutor.run ⟨errState, [], false⟩ ⟨"move up 3", "r"⟩ d e 0).2).state.consecutiveErrors
         = 0) := by
  refine ⟨?_, fun d e => ⟨rfl, rfl⟩, fun d e => ⟨rfl, rfl⟩⟩
  intro ex plan st1 pkts r now hb
  simp [ActionExecutor.execute, BotState.addToHistory, hb]

/-- Witness for C10: a concrete failed-but-not-thrown completion resets
the counter from 4 to 0. -/
theorem nonthrowing_execute_resets_errors_witness :
    ((ActionExecutor.execute ⟨errState, [], false⟩ ⟨"wait", "r"⟩
        (.ok errState [] ⟨false, "nope"⟩) 0).2).state.consecutiveErrors = 0 :=
  nonthrowing_execute_resets_errors.1 ⟨errState, [], false⟩ ⟨"wait", "r"⟩
    errState [] ⟨false, "nope"⟩ 0 rfl

/-- C4 (code bug): on an `inventory_content` event the handler passes
`determineGamePhase()` evaluated on the pre-event inventory, so after
picking up a first diamond item the stored phase is still `early` while
`determineGamePhase` on the resulting inventory is `late` — the stored
phase lags one inventory event behind the claimed invariant. -/
theorem game_phase_stale_at_diamond_pickup :
    (inventoryContentHandler BotState.init (some [⟨some "diamond_sword", 1⟩]) 1).gamePhase
      = "early" ∧
    (inventoryContentHandler BotState.init (some [⟨some "diamond_sword", 1⟩]) 1).determineGamePhase
      = "late" ∧
    (inventoryContentHandler BotState.init (some [⟨some "diamond_sword", 1⟩]) 1).gamePhase
      ≠ (inventoryContentHandler BotState.init (some [⟨some "diamond_sword", 1⟩]) 1).determineGamePhase := by
  exact ⟨rfl, by decide, by decide⟩

/-- C5 counterexample: the core variant's `determineGamePhase` has no
endgame tier at all — an inventory holding an elytra is classified
`early`, not `endgame`. -/
theorem core_phase_elytra_counterexample :
    BotState.determineGamePhase
        { BotState.init with inventory := [⟨some "elytra", 1⟩] } = "early" ∧
    ("early" : String) ≠ "endgame" := by
  exact ⟨by decide, by decide⟩

/-- C5 amended: the broad variant checks endgame markers (elytra/dragon)
before late markers (diamond/netherite) before mid markers (iron),
defaulting to early; the core variant omits the endgame tier and starts
at the diamond/netherite check.  In both variants an inventory holding
iron- and diamond-named items (and, in the broad variant, no endgame
marker) is classified `late`, not `mid`. -/
theorem phase_order_amended :
    (∀ st : Broad.BotState,
        (st.inventory.map lowerName).any (fun i =>
            listContains i "elytra".toList || listContains i "dragon".toList)
          = true →
        Broad.BotState.determineGamePhase st = "endgame") ∧
    (∀ st : Broad.BotState,
        (st.inventory.map lowerName).any (fun i =>
            listContains i "elytra".toList || listContains i "dragon".toList)
          = false →
        (st.inventory.map lowerName).any (fun i =>
            listContains i "diamond".toList || listContains i "netherite".toList)
          = true →
        Broad.BotState.determineGamePhase st = "late") ∧
    (∀ st : BotState,
        (st.inventory.map lowerName).any (fun i =>
            listContains i "diamond".toList || listContains i "netherite".toList)
          = true →
        BotState.determineGamePhase st = "late") ∧
    (∀ st : BotState,
        (st.inventory.map lowerName).any (fun i =>
            listContains i "diamond".toList || listContains i "netherite".toList)
          = false →
        (st.inventory.map lowerName).any (fun i => listContains i "iron".toList)
          = true →
        BotState.determineGamePhase st = "mid") ∧
    (∀ st : BotState,
        (st.inventory.map lowerName).any (fun i =>
            listContains i "diamond".toList || listContains i "netherite".toList)
          = false →
        (st.inventory.map lowerName).any (fun i => listContains i "iron".toList)
          = false →
        BotState.determineGamePhase st = "early") ∧
    (∀ st : Broad.BotState,
        (st.inventory.map lowerName).any (fun i =>
            listContains i "elytra".toList || listContains i "dragon".toList)
          = false →
        (st.inventory.map lowerName).any (fun i =>
            listContains i "diamond".toList || listContains i "netherite".toList)
          = false →
        (st.inventory.map lowerName).any (fun i => listContains i "iron".toList)
          = true →
        Broad.BotState.determineGamePhase st = "mid") ∧
    (∀ st : Broad.BotState,
        (st.inventory.map lowerName).any (fun i =>
            listContains i "elytra".toList || listContains i "dragon".toList)
          = false →
        (st.inventory.map lowerName).any (fun i =>
            listContains i "diamond".toList || listContains i "netherite".toList)
          = false →
        (st.inventory.map lowerName).any (fun i => listContains i "iron".toList)
          = false →
        Broad.BotState.determineGamePhase st = "early") := by
  refine ⟨?_, ?_, ?_, ?_, ?_, ?_, ?_⟩
  · intro st h
    simp only [Broad.BotState.determineGamePhase]
    rw [h]
    simp
  · intro st h1 h2
    simp only [Broad.BotState.determineGamePhase]
    rw [h1, h2]
    simp
  · intro st h
    simp only [BotState.determineGamePhase]
    rw [h]
    simp
  · intro st h1 h2
    simp only [BotState.determineGamePhase]
    rw [h1, h2]
    simp
  · intro st h1 h2
    simp only [BotState.determineGamePhase]
    rw [h1, h2]
    simp
  · intro st h1 h2 h3
    simp only [Broad.BotState.determineGamePhase]
    rw [h1, h2, h3]
    simp
  · intro st h1 h2 h3
    simp only [Broad.BotState.determineGamePhase]
    rw [h1, h2, h3]
    simp

/-- A broad-variant state holding an elytra. -/
def elytraStateB : Broad.BotState :=
  { Broad.BotState.init with inventory := [⟨some "Elytra", 1⟩] }

/-- A broad-variant state holding iron and diamond gear. -/
def ironDiamondStateB : Broad.BotState :=
  { Broad.BotState.init with
      inventory := [⟨some "iron_sword", 1⟩, ⟨some "diamond_axe", 1⟩] }

/-- A core state holding iron and diamond gear. -/
def ironDiamondState : BotState :=
  { BotState.init with
      inventory := [⟨some "iron_sword", 1⟩, ⟨some "diamond_axe", 1⟩] }

/-- A broad-variant state holding only iron gear. -/
def ironOnlyStateB : Broad.BotState :=
  { Broad.BotState.init with inventory := [⟨some "iron_pickaxe", 1⟩] }

/-- Witness for the amended C5 at concrete inventories, one per tier of
each variant's ladder. -/
theorem phase_order_amended_witness :
    Broad.BotState.determineGamePhase elytraStateB = "endgame" ∧
    Broad.BotState.determineGamePhase ironDiamondStateB = "late" ∧
    BotState.determineGamePhase ironDiamondState = "late" ∧
    Broad.BotState.determineGamePhase ironOnlyStateB = "mid" ∧
    Broad.BotState.determineGamePhase Broad.BotState.init = "early" :=
  ⟨phase_order_amended.1 elytraStateB (by decide),
   phase_order_amended.2.1 ironDiamondStateB (by decide) (by decide),
   phase_order_amended.2.2.1 ironDiamondState (by decide),
   phase_order_amended.2.2.2.2.2.1 ironOnlyStateB (by decide) (by decide)
     (by decide),
   phase_order_amended.2.2.2.2.2.2 Broad.BotState.init (by decide) (by decide)
     (by decide)⟩

/-- C8 counterexample: the broad variant's `performAction` reports an
unknown token as `Unknown action: <token>`, not the claimed
`Unknown command: <token>` (it still fails and sends nothing). -/
theorem broad_unknown_message_counterexample :
    (Broad.performAction Broad.BotState.init "fly" 0 0).2 =
      ⟨false, "Unknown action: fly"⟩ ∧
    (Broad.performAction Broad.BotState.init "fly" 0 0).1 = [] ∧
    ("Unknown action: fly" : String) ≠ "Unknown command: fly" := by
  exact ⟨by decide, by decide, by decide⟩

/-- C8 amended: a plan whose leading token is outside the fixed handler
set returns `success:false` and sends nothing to the session capability
in either variant; the message is `Unknown command: <token>` in the core
variant and `Unknown action: <token>` in the broad one. -/
theorem unknown_command_amended :
    (∀ (st : BotState) (a : String) (d : Fin 4) (e : Fin 7),
        coreCommandOf a ∉ coreCommandNames →
        ActionExecutor.performAction st a d e =
          (st, [], ⟨false, "Unknown command: " ++ coreCommandOf a⟩)) ∧
    (∀ (st : Broad.BotState) (a : String) (dx dz : ℚ),
        Broad.commandOf a ∉ Broad.commandNames →
        Broad.performAction st a dx dz =
          ([], ⟨false, "Unknown action: " ++ Broad.commandOf a⟩)) := by
  constructor
  · intro st a d e h
    simp only [coreCommandNames, List.mem_cons, List.not_mem_nil, or_false,
      not_or] at h
    obtain ⟨h1, h2, h3, h4, h5, h6, h7⟩ := h
    simp [ActionExecutor.performAction, h1, h2, h3, h4, h5, h6, h7]
  · intro st a dx dz h
    simp only [Broad.commandNames, List.mem_cons, List.not_mem_nil, or_false,
      not_or] at h
    obtain ⟨h1, h2, h3, h4, h5, h6, h7, h8⟩ := h
    simp [Broad.performAction, h1, h2, h3, h4, h5, h6, h7, h8]

/-- Witness for the amended C8 at concrete unknown commands. -/
theorem unknown_command_amended_witness :
    ActionExecutor.performAction BotState.init "fly" 0 0 =
      (BotState.init, [], ⟨false, "Unknown command: " ++ coreCommandOf "fly"⟩) ∧
    Broad.performAction Broad.BotState.init "dig deep" 0 0 =
      ([], ⟨false, "Unknown action: " ++ Broad.commandOf "dig deep"⟩) :=
  ⟨unknown_command_amended.1 BotState.init "fly" 0 0 (by decide),
   unknown_command_amended.2 Broad.BotState.init "dig deep" 0 0 (by decide)⟩

/-- A core state whose error counter already exceeds the ceiling. -/
def overLimitState : BotState := { BotState.init with consecutiveErrors := 6 }

/-- C3 counterexample: with `consecutiveErrors = 6 > 5`, a decision cycle
still invokes the reasoning capability, uses its successful reply instead
of the deterministic fallback, and leaves the counter at 6 — so a
successful decision neither is bypassed nor resets the counter to 0. -/
theorem circuit_breaker_counterexample :
    (GeminiController.think [] overLimitState (.ok "ACTION: wait")).calledGemini
      = true ∧
    (GeminiController.think [] overLimitState (.ok "ACTION: wait")).plan ≠
      GeminiController.safeFallback overLimitState ∧
    (GeminiController.think [] overLimitState (.ok "ACTION: wait")).state.consecutiveErrors
      ≠ 0 := by
  exact ⟨rfl, by decide, by decide⟩

/-- C3 amended: the reasoning capability is called on every cycle
regardless of the counter; once `consecutiveErrors` reaches the ceiling,
a cycle whose reasoning call fails increments the counter and returns the
deterministic fallback keyed on health and phase (health < 10 → wait,
early phase → mine wood, otherwise explore) instead of the plain
error-recovery wait; a successful decision leaves the counter unchanged —
it is zeroed only by the executor when an execution completes without
throwing. -/
theorem circuit_breaker_amended :
    (∀ (hist : List ConvEntry) (st : BotState) (res : Except String String),
        (GeminiController.think hist st res).calledGemini = true) ∧
    (∀ (hist : List ConvEntry) (st : BotState) (msg : String),
        5 ≤ st.consecutiveErrors →
        (GeminiController.think hist st (.error msg)).plan =
          GeminiController.safeFallback
            { st with consecutiveErrors := st.consecutiveErrors + 1 } ∧
        (GeminiController.think hist st (.error msg)).state.consecutiveErrors =
          st.consecutiveErrors + 1) ∧
    (∀ st : BotState, st.health < 10 →
        GeminiController.safeFallback st = ⟨"wait", "Low health, being cautious"⟩) ∧
    (∀ st : BotState, ¬ st.health < 10 → st.gamePhase = "early" →
        GeminiController.safeFallback st = ⟨"mine wood", "Need basic resources"⟩) ∧
    (∀ st : BotState, ¬ st.health < 10 → st.gamePhase ≠ "early" →
        GeminiController.safeFallback st = ⟨"explore", "Safe exploration"⟩) ∧
    (∀ (hist : List ConvEntry) (st : BotState) (txt : String),
        (GeminiController.think hist st (.ok txt)).state.consecutiveErrors =
          st.consecutiveErrors) ∧
    (∀ (ex : ActionExecutor) (plan : Plan) (st1 : BotState)
       (pkts : List Packet) (r : ExecResult) (now : Nat), ex.isBusy = false →
        ((ActionExecutor.execute ex plan (.ok st1 pkts r) now).2).state.consecutiveErrors
          = 0) := by
  refine ⟨?_, ?_, ?_, ?_, ?_, ?_, ?_⟩
  · intro hist st res
    cases res with
    | ok t => rfl
    | error m =>
      simp only [GeminiController.think]
      split <;> rfl
  · intro hist st msg h
    have hc : st.consecutiveErrors + 1 > 5 := by omega
    simp [GeminiController.think, hc]
  · intro st h; simp [GeminiController.safeFallback, h]
  · intro st h1 h2; simp [GeminiController.safeFallback, h1, h2]
  · intro st h1 h2; simp [GeminiController.safeFallback, h1, h2]
  · intro hist st txt; rfl
  · intro ex plan st1 pkts r now hb
    simp [ActionExecutor.execute, BotState.addToHistory, hb]

/-- A core state sitting exactly at the error ceiling. -/
def atLimitState : BotState := { BotState.init with consecutiveErrors := 5 }

/-- A core state with critically low health. -/
def lowHealthState : BotState := { BotState.init with health := 3 }

/-- A core state past the early phase. -/
def latePhaseState : BotState := { BotState.init with gamePhase := "late" }

/-- Witness for the amended C3 at concrete states and outcomes. -/
theorem circuit_breaker_amended_witness :
    (GeminiController.think [] atLimitState (.error "HTTP 500")).plan =
      GeminiController.safeFallback
        { atLimitState with consecutiveErrors := atLimitState.consecutiveErrors + 1 } ∧
    GeminiController.safeFallback lowHealthState =
      ⟨"wait", "Low health, being cautious"⟩ ∧
    GeminiController.safeFallback BotState.init =
      ⟨"mine wood", "Need basic resources"⟩ ∧
    GeminiController.safeFallback latePhaseState =
      ⟨"explore", "Safe exploration"⟩ ∧
    ((ActionExecutor.execute ⟨atLimitState, [], false⟩ ⟨"wait", "r"⟩
        (.ok atLimitState [] ⟨true, "ok"⟩) 0).2).state.consecutiveErrors = 0 :=
  ⟨(circuit_breaker_amended.2.1 [] atLimitState "HTTP 500" (by decide)).1,
   circuit_breaker_amended.2.2.1 lowHealthState (by decide),
   circuit_breaker_amended.2.2.2.1 BotState.init (by decide) (by decide),
   circuit_breaker_amended.2.2.2.2.1 latePhaseState (by decide) (by decide),
   circuit_breaker_amended.2.2.2.2.2.2 ⟨atLimitState, [], false⟩ ⟨"wait", "r"⟩
     atLimitState [] ⟨true, "ok"⟩ 0 rfl⟩

/-- C6: the parser's precedence ladder.  An explicit `ACTION:` marker wins
over any bare command phrase earlier in the text — on the scenario input
`"mine wood now... ACTION: explore"` the parsed action is `explore` with
the text before the marker as reasoning; whenever the marker regex
matches, the plan is built from its capture and the pre-marker text;
absent a marker, the first known command verb with arguments that the
scan finds anywhere in the text becomes the action (tagged `Extracted
from response`); when neither matches, the result is the default explore
plan with the parse-failure note.  The parser is a total function, so it
returns some plan on every input and never throws. -/
theorem parse_action_precedence :
    GeminiController.parseAction "mine wood now... ACTION: explore" =
      ⟨"explore", "mine wood now..."⟩ ∧
    (∀ (r cap : String), actionMarkerSearch r = some cap →
        GeminiController.parseAction r =
          ⟨strTrim cap, strTrim (beforeFirstActionColon r)⟩) ∧
    (∀ (r m : String), actionMarkerSearch r = none →
        commandsList.findSome? (fun cmd => scanCommand cmd r) = some m →
        GeminiController.parseAction r =
          ⟨strTrim m, "Extracted from response"⟩) ∧
    (∀ r : String, actionMarkerSearch r = none →
        commandsList.findSome? (fun cmd => scanCommand cmd r) = none →
        GeminiController.parseAction r =
          ⟨"explore", "Could not parse action, defaulting to explore"⟩) := by
  refine ⟨by decide, ?_, ?_, ?_⟩
  · intro r cap h
    simp [GeminiController.parseAction, h]
  · intro r m h1 h2
    simp [GeminiController.parseAction, h1, h2]
  · intro r h1 h2
    simp [GeminiController.parseAction, h1, h2]

/-- Witness for C6: the marker path, the bare-verb scan path, and the
default path at concrete inputs. -/
theorem parse_action_precedence_witness :
    GeminiController.parseAction "go ACTION: wait" =
      ⟨strTrim "wait", strTrim (beforeFirstActionColon "go ACTION: wait")⟩ ∧
    GeminiController.parseAction "please mine stone now" =
      ⟨strTrim "mine stone now", "Extracted from response"⟩ ∧
    GeminiController.parseAction "nothing recognizable here" =
      ⟨"explore", "Could not parse action, defaulting to explore"⟩ :=
  ⟨parse_action_precedence.2.1 "go ACTION: wait" "wait" (by decide),
   parse_action_precedence.2.2.1 "please mine stone now" "mine stone now"
     (by decide) (by decide),
   parse_action_precedence.2.2.2 "nothing recognizable here" (by decide)
     (by decide)⟩

/-- The push-then-slice step always equals dropping down to the last
`cap` elements (Nat subtraction makes the under-capacity case a
`drop 0`). -/
theorem trimTo_eq_drop (cap : Nat) (l : List α) :
    trimTo cap l = l.drop (l.length - cap) := by
  by_cases h : l.length > cap
  · simp [trimTo, h]
  · have hz : l.length - cap = 0 := by omega
    simp [trimTo, h, hz]

/-- One `addToHistory` call of the core variant as a fold step. -/
def coreHistStep (st : BotState) (x : String × String × String × Nat) :
    BotState :=
  st.addToHistory x.1 x.2.1 x.2.2.1 x.2.2.2

/-- The entry a core `addToHistory` call appends, tagged with the calling
state's phase and position. -/
def coreEntryOf (st : BotState) (x : String × String × String × Nat) :
    HistoryEntry :=
  ⟨x.2.2.2, x.1, x.2.1, x.2.2.1, st.gamePhase, st.position⟩

theorem coreHistStep_actionHistory (st : BotState)
    (x : String × String × String × Nat) :
    (coreHistStep st x).actionHistory =
      (st.actionHistory ++ [coreEntryOf st x]).drop
        ((st.actionHistory.length + 1) - 100) := by
  simp [coreHistStep, BotState.addToHistory, coreEntryOf, trimTo_eq_drop]

/-- Folding core `addToHistory` calls from any under-capacity state keeps
the phase and position, keeps the log under 100 entries, and leaves
exactly the last 100 of the full insertion sequence, in order. -/
theorem core_fold_history (inputs : List (String × String × String × Nat)) :
    ∀ st : BotState, st.actionHistory.length ≤ 100 →
      (inputs.foldl coreHistStep st).gamePhase = st.gamePhase ∧
      (inputs.foldl coreHistStep st).position = st.position ∧
      (inputs.foldl coreHistStep st).actionHistory =
        (st.actionHistory ++ inputs.map (coreEntryOf st)).drop
          ((st.actionHistory.length + inputs.length) - 100) ∧
      (inputs.foldl coreHistStep st).actionHistory.length ≤ 100 := by
  induction inputs with
  | nil =>
    intro st h
    refine ⟨rfl, rfl, ?_, h⟩
    have hz : st.actionHistory.length + (0 : Nat) - 100 = 0 := by omega
    simp only [List.foldl_nil, List.map_nil, List.append_nil, List.length_nil,
      hz, List.drop_zero]
  | cons x xs ih =>
    intro st h
    have hstep := coreHistStep_actionHistory st x
    have hlen : (coreHistStep st x).actionHistory.length ≤ 100 := by
      rw [hstep]
      simp [List.length_drop, List.length_append]
      omega
    obtain ⟨hg, hp, he, hl⟩ := ih (coreHistStep st x) hlen
    have hent : coreEntryOf (coreHistStep st x) = coreEntryOf st := rfl
    refine ⟨hg, hp, ?_, hl⟩
    rw [List.foldl_cons, he, hent, hstep]
    have hle : (st.actionHistory.length + 1) - 100 ≤
        (st.actionHistory ++ [coreEntryOf st x]).length := by
      simp
      omega
    rw [← List.drop_append_of_le_length hle, List.drop_drop]
    simp only [List.map_cons]
    rw [List.append_assoc, List.singleton_append]
    congr 1
    simp [List.length_drop, List.length_append]
    omega

/-- One `addToHistory` call of the broad variant as a fold step. -/
def broadHistStep (st : Broad.BotState) (x : String × String × Nat) :
    Broad.BotState :=
  st.addToHistory x.1 x.2.1 x.2.2

/-- The entry a broad `addToHistory` call appends. -/
def broadEntryOf (st : Broad.BotState) (x : String × String × Nat) :
    Broad.HistoryEntry :=
  ⟨x.2.2, x.1, x.2.1, st.gamePhase⟩

theorem broadHistStep_actionHistory (st : Broad.BotState)
    (x : String × String × Nat) :
    (broadHistStep st x).actionHistory =
      (st.actionHistory ++ [broadEntryOf st x]).drop
        ((st.actionHistory.length + 1) - 50) := by
  simp [broadHistStep, Broad.BotState.addToHistory, broadEntryOf, trimTo_eq_drop]

/-- Folding broad `addToHistory` calls from any under-capacity state
keeps the log under 50 entries and leaves exactly the last 50 of the full
insertion sequence, in order. -/
theorem broad_fold_history (inputs : List (String × String × Nat)) :
    ∀ st : Broad.BotState, st.actionHistory.length ≤ 50 →
      (inputs.foldl broadHistStep st).gamePhase = st.gamePhase ∧
      (inputs.foldl broadHistStep st).actionHistory =
        (st.actionHistory ++ inputs.map (broadEntryOf st)).drop
          ((st.actionHistory.length + inputs.length) - 50) ∧
      (inputs.foldl broadHistStep st).actionHistory.length ≤ 50 := by
  induction inputs with
  | nil =>
    intro st h
    refine ⟨rfl, ?_, h⟩
    have hz : st.actionHistory.length + (0 : Nat) - 50 = 0 := by omega
    simp only [List.foldl_nil, List.map_nil, List.append_nil, List.length_nil,
      hz, List.drop_zero]
  | cons x xs ih =>
    intro st h
    have hstep := broadHistStep_actionHistory st x
    have hlen : (broadHistStep st x).actionHistory.length ≤ 50 := by
      rw [hstep]
      simp [List.length_drop, List.length_append]
      omega
    obtain ⟨hg, he, hl⟩ := ih (broadHistStep st x) hlen
    have hent : broadEntryOf (broadHistStep st x) = broadEntryOf st := rfl
    refine ⟨hg, ?_, hl⟩
    rw [List.foldl_cons, he, hent, hstep]
    have hle : (st.actionHistory.length + 1) - 50 ≤
        (st.actionHistory ++ [broadEntryOf st x]).length := by
      simp
      omega
    rw [← List.drop_append_of_le_length hle, List.drop_drop]
    simp only [List.map_cons]
    rw [List.append_assoc, List.singleton_append]
    congr 1
    simp [List.length_drop, List.length_append]
    omega

/-- C7: for every sequence of `addToHistory` calls from the freshly
constructed state, the log never exceeds its capacity (100 in the core
variant, 50 in the broad one) and always equals the suffix of the full
insertion sequence that fits — entries stay in insertion order and on
overflow exactly the oldest entries are the ones evicted (FIFO). -/
theorem history_bounded_fifo :
    (∀ inputs : List (String × String × String × Nat),
        (inputs.foldl coreHistStep BotState.init).actionHistory.length ≤ 100 ∧
        (inputs.foldl coreHistStep BotState.init).actionHistory =
          (inputs.map (coreEntryOf BotState.init)).drop (inputs.length - 100)) ∧
    (∀ inputs : List (String × String × Nat),
        (inputs.foldl broadHistStep Broad.BotState.init).actionHistory.length ≤ 50 ∧
        (inputs.foldl broadHistStep Broad.BotState.init).actionHistory =
          (inputs.map (broadEntryOf Broad.BotState.init)).drop (inputs.length - 50)) := by
  constructor
  · intro inputs
    obtain ⟨-, -, he, hl⟩ :=
      core_fold_history inputs BotState.init (by simp [BotState.init])
    refine ⟨hl, ?_⟩
    simpa [BotState.init] using he
  · intro inputs
    obtain ⟨-, he, hl⟩ :=
      broad_fold_history inputs Broad.BotState.init (by simp [Broad.BotState.init])
    refine ⟨hl, ?_⟩
    simpa [Broad.BotState.init] using he

/-- Recognizer for the interpolation packets the core `move` loop emits. -/
def isMovePlayerPacket : Packet → Bool
  | .movePlayer _ _ _ _ => true
  | _ => false

/-- The core `move` loop advances the position by `n * (d * stepSize)` on
each axis and appends exactly one `move_player` packet per step. -/
theorem move_fold (dx dz yaw ss : ℚ) (n : Nat) :
    ∀ (st : BotState) (ps : List Packet),
      ∃ qs : List Packet,
        ((List.range n).foldl (moveStep dx dz yaw ss) (st, ps)).2 = ps ++ qs ∧
        qs.length = n ∧
        qs.all isMovePlayerPacket = true ∧
        ((List.range n).foldl (moveStep dx dz yaw ss) (st, ps)).1.position.x =
          st.position.x + n * (dx * ss) ∧
        ((List.range n).foldl (moveStep dx dz yaw ss) (st, ps)).1.position.y =
          st.position.y ∧
        ((List.range n).foldl (moveStep dx dz yaw ss) (st, ps)).1.position.z =
          st.position.z + n * (dz * ss) := by
  induction n with
  | zero =>
    intro st ps
    refine ⟨[], by simp, by simp, by simp, by simp, by simp, by simp⟩
  | succ n ih =>
    intro st ps
    obtain ⟨qs, hq, hqlen, hall, hx, hy, hz⟩ := ih st ps
    rw [List.range_succ]
    simp only [List.foldl_append, List.foldl_cons, List.foldl_nil]
    set acc := (List.range n).foldl (moveStep dx dz yaw ss) (st, ps) with hacc
    refine ⟨qs ++ [Packet.movePlayer
        ⟨acc.1.position.x + dx * ss, acc.1.position.y, acc.1.position.z + dz * ss⟩
        yaw 0 true], ?_, ?_, ?_, ?_, ?_, ?_⟩
    · simp only [moveStep]
      rw [hq]
      simp [List.append_assoc]
    · simp [hqlen]
    · simp [List.all_append, hall, isMovePlayerPacket]
    · simp only [moveStep]
      rw [hx]
      push_cast
      ring
    · simp only [moveStep]
      rw [hy]
    · simp only [moveStep]
      rw [hz]
      push_cast
      ring

/-- C9: the core `move` handler interpolates the requested distance into
`min(4·blocks, 40)` equal steps, emitting exactly one `move_player`
position update per step (for every direction-valid request length), and
for direction `north` with distance `10` — 40 steps of size 1/4 — the
final stored position's z-coordinate is exactly 10 lower while x and y
are unchanged, with a success result. -/
theorem move_north_interpolation :
    (∀ (st : BotState) (blocks : Int),
        ((ActionExecutor.move st "north" blocks).2.1).length =
          (min (blocks * 4) 40).toNat) ∧
    (∀ st : BotState,
        (ActionExecutor.move st "north" 10).1.position.z = st.position.z - 10 ∧
        (ActionExecutor.move st "north" 10).1.position.x = st.position.x ∧
        (ActionExecutor.move st "north" 10).1.position.y = st.position.y ∧
        ((ActionExecutor.move st "north" 10).2.1).length = 40 ∧
        ((ActionExecutor.move st "north" 10).2.1).all isMovePlayerPacket = true ∧
        (ActionExecutor.move st "north" 10).2.2.success = true) := by
  have hd : directionsCore "north" = some (0, -1, 180) := by decide
  constructor
  · intro st blocks
    simp only [ActionExecutor.move, hd]
    obtain ⟨qs, hq, hqlen, -, -, -, -⟩ :=
      move_fold 0 (-1) 180 ((blocks : ℚ) / ((min (blocks * 4) 40 : Int) : ℚ))
        (min (blocks * 4) 40).toNat st []
    rw [hq]
    simp [hqlen]
  · intro st
    simp only [ActionExecutor.move, hd]
    have h40 : (min ((10 : Int) * 4) 40) = 40 := by decide
    simp only [h40]
    obtain ⟨qs, hq, hqlen, hall, hx, hy, hz⟩ :=
      move_fold 0 (-1) 180 (((10 : Int) : ℚ) / (((40 : Int)) : ℚ))
        ((40 : Int)).toNat st []
    refine ⟨?_, ?_, ?_, ?_, ?_, ?_⟩
    · rw [hz, show ((40 : Int)).toNat = (40 : Nat) from rfl]; push_cast; ring
    · rw [hx]; norm_num
    · rw [hy]
    · rw [hq]; simp [hqlen]
    · rw [hq]; simpa using hall
    · trivial
